import Mathlib

/-!
Verification development for the streaming closed-captioning application
(src/streaming_caption_app.py).  The Python program is shallowly embedded:
pure helpers become Lean functions, the two session threads (the streaming
recognition driver and the periodic diarization reconciler) become explicit
state-passing step functions, and the interleaving of the two threads is a
step relation over a combined session state, with one atomic step per
received recognition response and per reconciliation tick.

Modelling conventions, stated once:
* 16-bit audio samples are integers; the byte-level struct packing and
  unpacking of amplify_audio is elided, the function is modelled at the
  level of the decoded sample list.
* The Python float gain is modelled as an exact rational; Python's int()
  conversion truncates toward zero, modelled by ratTrunc.
* Python str.lower, str.isalnum, str.split and str.startswith are modelled
  at the character-list level with the corresponding ASCII semantics
  (the source only feeds ASCII service transcripts through them).
* Python dicts keep insertion order, so the speaker-vote tally is an
  insertion-ordered association list, and max over a dict iterates keys in
  that order keeping the first strict maximum.
-/

namespace StreamingCaption

/-- Audio sample rate, line 56 of src/streaming_caption_app.py: RATE = 16000. -/
def RATE : Nat := 16000

/-- Default amplification gain, line 58: GAIN = 3.0, modelled as an exact rational. -/
def GAIN : ℚ := 3

/-- Truncation toward zero: the behaviour of Python int() applied to a real value. -/
def ratTrunc (q : ℚ) : ℤ := if 0 ≤ q then ⌊q⌋ else ⌈q⌉

/-- amplify_audio, lines 62-74, at the level of decoded 16-bit samples:
each sample is multiplied by the gain, truncated to an integer by int(),
and clipped into the signed 16-bit range by max(-32768, min(32767, s)). -/
def amplify_audio (samples : List ℤ) (gain : ℚ) : List ℤ :=
  samples.map (fun sample : ℤ => max (-32768) (min 32767 (ratTrunc ((sample : ℚ) * gain))))

/-- A finalized transcript entry as appended to self.transcript_buffer
(lines 420-424); the capture timestamp is irrelevant to every claim and elided. -/
structure Segment where
  id : Nat
  text : String
  deriving DecidableEq

/-- Events pushed to the socket boundary (socketio.emit calls). -/
inductive Event where
  | interim (text : String)
  | final (id : Nat) (text : String)
  | speaker_update (id : Nat) (speaker : ℤ) (color : String) (name : String)
  | status (s : String)
  | error (msg : String)
  deriving DecidableEq

/-- One word of the diarization word timeline (word_list entries, lines 488-494). -/
structure TimelineWord where
  word : String
  speaker : ℤ
  deriving DecidableEq

/-- Fixed colour palette, line 148. -/
def speaker_colors : List String :=
  ["#3498db", "#e74c3c", "#2ecc71", "#f39c12", "#9b59b6"]

/-- Fixed display-name palette, line 149. -/
def speaker_names : List String :=
  ["Speaker 1", "Speaker 2", "Speaker 3", "Speaker 4", "Speaker 5"]

/-- Display colour for a speaker tag, line 521:
self.speaker_colors[(speaker - 1) % len(self.speaker_colors)].
Python % with a positive modulus agrees with Int.emod. -/
def colorFor (s : ℤ) : String :=
  speaker_colors.getD ((s - 1).emod (speaker_colors.length : ℤ)).toNat ""

/-- Display name for a speaker tag, line 522. -/
def nameFor (s : ℤ) : String :=
  speaker_names.getD ((s - 1).emod (speaker_names.length : ℤ)).toNat ""

/-- Python str.lower at the character level (ASCII). -/
def lowerString (s : String) : String := String.mk (s.toList.map Char.toLower)

/-- Whitespace splitting of Python str.split() with no arguments: splits on
runs of whitespace and never yields an empty token.  The accumulator holds
the current in-progress token reversed. -/
def wordsAux : List Char → List Char → List (List Char)
  | [], acc => if acc = [] then [] else [acc.reverse]
  | c :: cs, acc =>
      if c.isWhitespace then
        if acc = [] then wordsAux cs [] else acc.reverse :: wordsAux cs []
      else wordsAux cs (c :: acc)

/-- item['text'].lower().split() of line 502. -/
def tokenize (text : String) : List (List Char) :=
  wordsAux (text.toList.map Char.toLower) []

/-- Token cleaning of line 507: ''.join(c for c in iw if c.isalnum()). -/
def cleanChars (tok : List Char) : List Char := tok.filter Char.isAlphanum

/-- Python str.startswith at the character-list level: startsWithL w p is
true exactly when p is a prefix of w. -/
def startsWithL : List Char → List Char → Bool
  | _, [] => true
  | [], _ :: _ => false
  | c :: cs, p :: ps => c == p && startsWithL cs ps

/-- Placeholder timeline word used as the List.getD default; every index the
alignment produces is below the timeline length, so it is never consulted
on reachable inputs (Python would raise IndexError instead). -/
def noWord : TimelineWord := ⟨"", 0⟩

/-- The hit test of line 512: word_list[wi]['word'].startswith(clean_iw[:3]).
Python s[:3] is String-take of at most three characters. -/
def hitAt (wl : List TimelineWord) (wi : Nat) (clean : List Char) : Bool :=
  startsWithL (wl.getD wi noWord).word.toList (clean.take 3)

/-- The index window of line 511: range(max(0, word_idx-5), min(len(word_list),
word_idx+20)).  Nat subtraction saturates at zero exactly like max(0, idx-5). -/
def window (wl : List TimelineWord) (idx : Nat) : List Nat :=
  List.range' (idx - 5) (min wl.length (idx + 20) - (idx - 5))

/-- First index in the window whose timeline word passes the hit test
(the for-loop of lines 511-516 breaks at the first hit). -/
def findHit (wl : List TimelineWord) (idx : Nat) (clean : List Char) : Option Nat :=
  (window wl idx).find? (fun wi => hitAt wl wi clean)

/-- Vote-tally increment of line 514: speaker_votes[s] = speaker_votes.get(s,0)+1
on an insertion-ordered association list (Python dict semantics: an existing
key keeps its position, a new key is appended). -/
def bump : List (ℤ × Nat) → ℤ → List (ℤ × Nat)
  | [], s => [(s, 1)]
  | (t, c) :: rest, s => if t = s then (t, c + 1) :: rest else (t, c) :: bump rest s

/-- Processing of one transcript token, lines 506-516: clean the token, skip it
if empty, otherwise search the window; on a hit record a vote for the matched
word's speaker and set the cursor just past the matched word.
The state is (word_idx, speaker_votes). -/
def voteStep (wl : List TimelineWord) (st : Nat × List (ℤ × Nat)) (tok : List Char) :
    Nat × List (ℤ × Nat) :=
  let clean := cleanChars tok
  if clean = [] then st
  else
    match findHit wl st.1 clean with
    | none => st
    | some wi => (wi + 1, bump st.2 (wl.getD wi noWord).speaker)

/-- Alignment of one segment's text against the timeline, lines 502-516,
starting from the given cursor with an empty vote tally. -/
def alignSegment (wl : List TimelineWord) (idx : Nat) (text : String) :
    Nat × List (ℤ × Nat) :=
  (tokenize text).foldl (voteStep wl) (idx, [])

/-- Tail of Python max(d, key=d.get) over an insertion-ordered tally: scan the
remaining entries keeping the current best, replacing it only on a strictly
larger count. -/
def maxVoteAux : ℤ → Nat → List (ℤ × Nat) → ℤ
  | t, _, [] => t
  | t, c, (t2, c2) :: rest => if c < c2 then maxVoteAux t2 c2 rest else maxVoteAux t c rest

/-- max(speaker_votes, key=speaker_votes.get) of line 520; none on an empty
tally (Python max would raise, guarded by line 518's emptiness test). -/
def maxVote : List (ℤ × Nat) → Option ℤ
  | [] => none
  | (t, c) :: rest => some (maxVoteAux t c rest)

/-- Accumulator of the per-tick segment loop of lines 497-531: the shared
timeline cursor, the processed-ids set (insertion ordered) and the events
emitted so far this tick. -/
structure TickAcc where
  word_idx : Nat
  processed : List Nat
  events : List Event
  deriving DecidableEq

/-- Processing of one transcript item by the loop body, lines 498-531: skip if
already processed; otherwise align its text (the cursor persists across
segments); if any votes were cast, emit one speaker_update with the winning
tag's colour and name and mark the id processed. -/
def segStep (wl : List TimelineWord) (acc : TickAcc) (seg : Segment) : TickAcc :=
  if seg.id ∈ acc.processed then acc
  else
    match maxVote (alignSegment wl acc.word_idx seg.text).2 with
    | none => { acc with word_idx := (alignSegment wl acc.word_idx seg.text).1 }
    | some t =>
        { word_idx := (alignSegment wl acc.word_idx seg.text).1,
          processed := acc.processed ++ [seg.id],
          events :=
            acc.events ++ [Event.speaker_update seg.id t (colorFor t) (nameFor t)] }

/-- The whole segment loop of lines 497-531 (word_idx = 0 on entry). -/
def processSegments (wl : List TimelineWord) (acc : TickAcc) (segs : List Segment) :
    TickAcc :=
  segs.foldl (segStep wl) acc

/-- Line 447: [t for t in self.transcript_buffer if t['id'] not in processed_captions]. -/
def unprocessedOf (processed : List Nat) (transcript : List Segment) : List Segment :=
  transcript.filter (fun t => decide (t.id ∉ processed))

/-- Minimum buffered audio for a diarization request, line 455:
RATE * 2 * 10 bytes, ten seconds of 16 kHz two-byte samples. -/
def MIN_DIAR_BYTES : Nat := RATE * 2 * 10

/-- Outcome of the one-shot diarization request of one tick, seen through the
extraction of lines 479-494: a word timeline (response present with
alternatives), an empty result list (line 532), or a raised exception. -/
inductive DiarResult where
  | ok (words : List TimelineWord)
  | noResults
  | fail (msg : String)
  deriving DecidableEq

/-- Which path a reconciliation tick took. -/
inductive TickStatus where
  | skippedNoUnprocessed
  | skippedShortAudio
  | ran
  deriving DecidableEq

/-- Observable outcome of one reconciliation tick: the processed-ids set
afterwards, the events emitted during the tick, and which path was taken
(status = ran exactly when a diarization request was issued). -/
structure TickOut where
  processed : List Nat
  events : List Event
  status : TickStatus
  deriving DecidableEq

/-- One body iteration of run_diarization's while-loop, lines 443-538:
skip when every transcript item is already processed (line 448); otherwise
skip when fewer than MIN_DIAR_BYTES bytes of audio are buffered (line 455);
otherwise issue the diarization request; an exception (DiarResult.fail) is
caught by the except of line 535 leaving the state untouched; an empty
result list does nothing (line 532); otherwise run the segment loop on the
lowercased word timeline (line 492). -/
def tick (processed : List Nat) (transcript : List Segment) (audioLen : Nat)
    (dia : DiarResult) : TickOut :=
  if unprocessedOf processed transcript = [] then
    ⟨processed, [], TickStatus.skippedNoUnprocessed⟩
  else if audioLen < MIN_DIAR_BYTES then
    ⟨processed, [], TickStatus.skippedShortAudio⟩
  else
    match dia with
    | DiarResult.fail _ => ⟨processed, [], TickStatus.ran⟩
    | DiarResult.noResults => ⟨processed, [], TickStatus.ran⟩
    | DiarResult.ok words =>
        let wl := words.map (fun w => ⟨lowerString w.word, w.speaker⟩)
        let acc := processSegments wl ⟨0, processed, []⟩ transcript
        ⟨acc.processed, acc.events, TickStatus.ran⟩

/-- What one tick of the reconciliation loop observes: the transcript ledger
and buffered-audio length at the start of the tick (both may have grown
since the previous tick) and the outcome of the diarization request. -/
structure TickInput where
  transcript : List Segment
  audioLen : Nat
  dia : DiarResult
  deriving DecidableEq

/-- The reconciliation loop across successive ticks of one session
(processed_captions = set() on entry, line 441), collecting all emitted
events in order. -/
def runTicks : List Nat → List TickInput → List Nat × List Event
  | processed, [] => (processed, [])
  | processed, ti :: rest =>
      let r := tick processed ti.transcript ti.audioLen ti.dia
      let q := runTicks r.processed rest
      (q.1, r.events ++ q.2)

/-- State of the streaming driver thread: the id counter (self.caption_id),
the transcript ledger (self.transcript_buffer) and the running flag. -/
structure DriverState where
  caption_id : Nat
  transcript : List Segment
  is_running : Bool
  deriving DecidableEq

/-- Session state installed by start_streaming, lines 354-357: counter reset
to 0, ledgers cleared, is_running true. -/
def startState : DriverState := ⟨0, [], true⟩

/-- One item received on the streaming recognition channel: a response
(none when it carries no results or no alternatives, lines 408-413,
otherwise the top alternative's transcript and its is_final flag), or a
raised exception. -/
inductive StreamItem where
  | resp (r : Option (String × Bool))
  | failure (msg : String)
  deriving DecidableEq

/-- Processing of one response, lines 408-428: empty responses are skipped,
an interim result emits an interim event, a final result takes the current
counter value as its id, increments the counter, appends to the transcript
ledger and emits a final event carrying the same id. -/
def streamStep (st : DriverState) (r : Option (String × Bool)) :
    DriverState × List Event :=
  match r with
  | none => (st, [])
  | some (t, false) => (st, [Event.interim t])
  | some (t, true) =>
      ({ st with
          caption_id := st.caption_id + 1,
          transcript := st.transcript ++ [⟨st.caption_id, t⟩] },
       [Event.final st.caption_id t])

/-- The response loop of lines 404-428: is_running is checked once per
received item (break when false); an exception aborts the loop, emitting an
error event and an Error status (lines 430-433). -/
def streamLoop : DriverState → List StreamItem → DriverState × List Event
  | st, [] => (st, [])
  | st, item :: rest =>
      if st.is_running then
        match item with
        | StreamItem.resp r =>
            let p := streamStep st r
            let q := streamLoop p.1 rest
            (q.1, p.2 ++ q.2)
        | StreamItem.failure m =>
            (st, [Event.error m, Event.status ("Error: " ++ m)])
      else (st, [])

/-- stream_audio, lines 372-436: run the response loop, then unconditionally
set is_running false and emit the terminal Stopped status (lines 435-436),
on both normal exit and the exception path. -/
def stream_audio (st : DriverState) (items : List StreamItem) :
    DriverState × List Event :=
  let p := streamLoop st items
  ({ p.1 with is_running := false }, p.2 ++ [Event.status "Stopped"])

/-- Id carried by a final event, if any. -/
def finalIdOf : Event → Option Nat
  | Event.final i _ => some i
  | _ => none

/-- Ids of the final events of a trace, in emission order. -/
def finalIds (evs : List Event) : List Nat := evs.filterMap finalIdOf

/-- One atomic step of the combined session: either the driver thread
processes one received response (appending to the ledger and emitting), or
the reconciler thread runs one tick against the current ledger.  The
buffered-audio length and diarization outcome of a tick are step data,
abstracting the audio ledger and the external service. -/
inductive SysOp where
  | recv (r : Option (String × Bool))
  | tick (audioLen : Nat) (dia : DiarResult)
  deriving DecidableEq

/-- Combined session state shared by the two threads. -/
structure SysState where
  caption_id : Nat
  transcript : List Segment
  processed : List Nat
  deriving DecidableEq

/-- Fresh session state: counter 0, empty ledger, empty processed set. -/
def sysInit : SysState := ⟨0, [], []⟩

/-- Effect of one combined-session step. -/
def sysStep (st : SysState) : SysOp → SysState × List Event
  | SysOp.recv none => (st, [])
  | SysOp.recv (some (t, false)) => (st, [Event.interim t])
  | SysOp.recv (some (t, true)) =>
      ({ st with
          caption_id := st.caption_id + 1,
          transcript := st.transcript ++ [⟨st.caption_id, t⟩] },
       [Event.final st.caption_id t])
  | SysOp.tick a d =>
      let r := tick st.processed st.transcript a d
      ({ st with processed := r.processed }, r.events)

/-- Trace of a whole interleaving of the two threads. -/
def sysRun (st : SysState) : List SysOp → SysState × List Event
  | [] => (st, [])
  | op :: ops =>
      let p := sysStep st op
      let q := sysRun p.1 ops
      (q.1, p.2 ++ q.2)

/-- Whether an event is a speaker_update for the given segment id. -/
def isSUFor (n : Nat) : Event → Bool
  | Event.speaker_update i _ _ _ => i == n
  | _ => false

/-- Number of speaker_update events for the given id in a trace. -/
def countSU (evs : List Event) (n : Nat) : Nat := (evs.filter (isSUFor n)).length

/-- A trace is speaker-update-after-final for every id: whenever the event at
position i is a speaker_update for id n, a final event for n occurs strictly
earlier in the trace.  Out-of-range positions yield the interim default,
which is not a speaker_update, so the property is vacuous there. -/
def suAfterFinalIn (evs : List Event) : Prop :=
  ∀ n i, isSUFor n (evs.getD i (Event.interim "")) = true →
    ∃ t, Event.final n t ∈ evs.take i

/-- Hit test exactly as worded by the specification sentence for claim C5:
the timeline word's first three characters match the token's first three
characters.  Declared only to compare against the source's
startswith-based test hitAt. -/
def claimHitAt (wl : List TimelineWord) (wi : Nat) (clean : List Char) : Bool :=
  (wl.getD wi noWord).word.toList.take 3 == clean.take 3

/-- findHit with the specification-worded hit test substituted. -/
def claimFindHit (wl : List TimelineWord) (idx : Nat) (clean : List Char) : Option Nat :=
  (window wl idx).find? (fun wi => claimHitAt wl wi clean)

/-- voteStep with the specification-worded hit test substituted. -/
def claimVoteStep (wl : List TimelineWord) (st : Nat × List (ℤ × Nat)) (tok : List Char) :
    Nat × List (ℤ × Nat) :=
  let clean := cleanChars tok
  if clean = [] then st
  else
    match claimFindHit wl st.1 clean with
    | none => st
    | some wi => (wi + 1, bump st.2 (wl.getD wi noWord).speaker)

/-- alignSegment with the specification-worded hit test substituted. -/
def claimAlignSegment (wl : List TimelineWord) (idx : Nat) (text : String) :
    Nat × List (ℤ × Nat) :=
  (tokenize text).foldl (claimVoteStep wl) (idx, [])

/-! ## Theorems -/

/-- C4.  Every output sample of amplify_audio lies in the signed 16-bit range:
the truncated product is kept when in range and clamped to -32768 or 32767
(never wrapped) when out of range, and the output has one sample per input
sample. -/
theorem amplify_audio_clamps (samples : List ℤ) (gain : ℚ) (i : Nat)
    (h : i < samples.length) :
    (amplify_audio samples gain).length = samples.length ∧
    (amplify_audio samples gain).getD i 0 =
      (if ratTrunc (((samples.getD i 0 : ℤ) : ℚ) * gain) < -32768 then -32768
       else if 32767 < ratTrunc (((samples.getD i 0 : ℤ) : ℚ) * gain) then 32767
       else ratTrunc (((samples.getD i 0 : ℤ) : ℚ) * gain)) ∧
    -32768 ≤ (amplify_audio samples gain).getD i 0 ∧
    (amplify_audio samples gain).getD i 0 ≤ 32767 := by
  have hlen : (amplify_audio samples gain).length = samples.length := by
    simp [amplify_audio]
  have hget : (amplify_audio samples gain).getD i 0
      = max (-32768) (min 32767 (ratTrunc (((samples.getD i 0 : ℤ) : ℚ) * gain))) := by
    rw [List.getD_eq_getElem?_getD, List.getD_eq_getElem?_getD]
    unfold amplify_audio
    rw [List.getElem?_map, List.getElem?_eq_getElem h]
    rfl
  refine ⟨hlen, ?_, ?_, ?_⟩ <;> rw [hget, max_def, min_def] <;> split_ifs <;> omega

/-- C4 witness: concrete evaluation on samples [30000, -30000, 5] with
gain 3; 90000 clamps to 32767, -90000 clamps to -32768. -/
theorem amplify_audio_clamps_witness :
    0 < ([30000, -30000, 5] : List ℤ).length ∧
    ((amplify_audio [30000, -30000, 5] 3).length = ([30000, -30000, 5] : List ℤ).length ∧
     (amplify_audio [30000, -30000, 5] 3).getD 0 0 =
       (if ratTrunc (((([30000, -30000, 5] : List ℤ).getD 0 0 : ℤ) : ℚ) * 3) < -32768
        then -32768
        else if 32767 < ratTrunc (((([30000, -30000, 5] : List ℤ).getD 0 0 : ℤ) : ℚ) * 3)
        then 32767
        else ratTrunc (((([30000, -30000, 5] : List ℤ).getD 0 0 : ℤ) : ℚ) * 3)) ∧
     -32768 ≤ (amplify_audio [30000, -30000, 5] 3).getD 0 0 ∧
     (amplify_audio [30000, -30000, 5] 3).getD 0 0 ≤ 32767) :=
  ⟨by decide, amplify_audio_clamps [30000, -30000, 5] 3 0 (by decide)⟩

/-- C8.  A tick with no unprocessed segments skips with no request, no events
and unchanged processed set, regardless of the buffered audio length (the
unprocessed check runs first); a tick with unprocessed segments but fewer
than MIN_DIAR_BYTES = 320000 buffered bytes likewise skips. -/
theorem tick_skip_conditions (processed : List Nat) (transcript : List Segment)
    (audioLen : Nat) (dia : DiarResult) :
    MIN_DIAR_BYTES = 320000 ∧
    (unprocessedOf processed transcript = [] →
       tick processed transcript audioLen dia
         = ⟨processed, [], TickStatus.skippedNoUnprocessed⟩) ∧
    (unprocessedOf processed transcript ≠ [] → audioLen < MIN_DIAR_BYTES →
       tick processed transcript audioLen dia
         = ⟨processed, [], TickStatus.skippedShortAudio⟩) := by
  refine ⟨by decide, ?_, ?_⟩
  · intro h1
    unfold tick
    rw [if_pos h1]
  · intro h1 h2
    unfold tick
    rw [if_neg h1, if_pos h2]

/-- C8 witness: an empty transcript skips as no-unprocessed even with ample
audio; a nonempty fresh transcript with 5 buffered bytes skips as
short-audio. -/
theorem tick_skip_conditions_witness :
    (unprocessedOf [] ([] : List Segment) = [] ∧
     tick [] [] 999999 DiarResult.noResults
       = ⟨[], [], TickStatus.skippedNoUnprocessed⟩) ∧
    (unprocessedOf [] [⟨0, "hi"⟩] ≠ [] ∧ 5 < MIN_DIAR_BYTES ∧
     tick [] [⟨0, "hi"⟩] 5 DiarResult.noResults
       = ⟨[], [], TickStatus.skippedShortAudio⟩) :=
  ⟨⟨by decide, (tick_skip_conditions [] [] 999999 DiarResult.noResults).2.1 (by decide)⟩,
   ⟨by decide, by decide,
    (tick_skip_conditions [] [⟨0, "hi"⟩] 5 DiarResult.noResults).2.2
      (by decide) (by decide)⟩⟩

/-- C9.  A failed diarization request is caught: the failing tick emits no
events and leaves the processed set unchanged, so every segment that was
unprocessed stays unprocessed and eligible, and the reconciliation loop over
the remaining ticks behaves exactly as if the failing tick had not occurred. -/
theorem diarization_failure_nonfatal (processed : List Nat)
    (transcript : List Segment) (audioLen : Nat) (m : String)
    (rest : List TickInput) :
    (tick processed transcript audioLen (DiarResult.fail m)).events = [] ∧
    (tick processed transcript audioLen (DiarResult.fail m)).processed = processed ∧
    runTicks processed (⟨transcript, audioLen, DiarResult.fail m⟩ :: rest)
      = runTicks processed rest := by
  have he : (tick processed transcript audioLen (DiarResult.fail m)).events = [] := by
    unfold tick
    split_ifs <;> rfl
  have hp : (tick processed transcript audioLen (DiarResult.fail m)).processed
      = processed := by
    unfold tick
    split_ifs <;> rfl
  refine ⟨he, hp, ?_⟩
  show (let r := tick processed transcript audioLen (DiarResult.fail m);
        let q := runTicks r.processed rest;
        ((q.1 : List Nat), r.events ++ q.2)) = runTicks processed rest
  simp [he, hp]

/-- Helper: finalIds distributes over trace concatenation. -/
theorem finalIds_append (a b : List Event) :
    finalIds (a ++ b) = finalIds a ++ finalIds b := by
  simp [finalIds]

/-- Helper: prepending n to a shifted range extends the range. -/
theorem range_shift_cons (k c : Nat) :
    c :: (List.range k).map (fun j => j + (c + 1))
      = (List.range (k + 1)).map (fun j => j + c) := by
  rw [List.range_succ_eq_map]
  simp only [List.map_cons, List.map_map, Nat.zero_add]
  refine congrArg (c :: ·) (List.map_congr_left ?_)
  intro a _
  simp [Function.comp]
  omega

/-- Helper: the final-event ids produced by the response loop from any state
form a contiguous run starting at the state's current counter value. -/
theorem streamLoop_finalIds (items : List StreamItem) :
    ∀ st : DriverState, ∃ k,
      finalIds (streamLoop st items).2
        = (List.range k).map (fun j => j + st.caption_id) := by
  induction items with
  | nil =>
    intro st
    exact ⟨0, by simp [streamLoop, finalIds]⟩
  | cons item rest ih =>
    intro st
    by_cases hr : st.is_running = true
    · cases item with
      | resp r =>
        cases r with
        | none =>
          obtain ⟨k, hk⟩ := ih st
          refine ⟨k, ?_⟩
          simpa [streamLoop, hr, streamStep, finalIds_append] using hk
        | some p =>
          obtain ⟨t, b⟩ := p
          cases b with
          | false =>
            obtain ⟨k, hk⟩ := ih st
            refine ⟨k, ?_⟩
            simpa [streamLoop, hr, streamStep, finalIds_append, finalIds, finalIdOf]
              using hk
          | true =>
            obtain ⟨k, hk⟩ := ih ⟨st.caption_id + 1,
              st.transcript ++ [⟨st.caption_id, t⟩], true⟩
            refine ⟨k + 1, ?_⟩
            rw [← range_shift_cons]
            simp only [streamLoop, hr, if_true, streamStep, finalIds_append]
            simp only [finalIds, List.filterMap_cons, finalIdOf] at hk ⊢
            simp [hk]
      | failure m =>
        exact ⟨0, by simp [streamLoop, hr, finalIds, finalIdOf]⟩
    · exact ⟨0, by simp [streamLoop, hr, finalIds]⟩

/-- C3.  Within one session the ids of successive final events are exactly
0, 1, 2, ...: starting from the state installed by start (counter reset
to 0), the id list of the final events emitted by stream_audio equals
List.range of its own length, for every sequence of received items. -/
theorem final_ids_strictly_increasing (items : List StreamItem) :
    finalIds (stream_audio startState items).2
      = List.range (finalIds (stream_audio startState items).2).length := by
  obtain ⟨k, hk⟩ := streamLoop_finalIds items startState
  have hplain : finalIds (stream_audio startState items).2 = List.range k := by
    show finalIds ((streamLoop startState items).2 ++ [Event.status "Stopped"])
      = List.range k
    rw [finalIds_append, hk]
    simp [finalIds, finalIdOf, startState]
  rw [hplain]
  simp

/-- Helper: streamStep never changes the running flag. -/
theorem streamStep_running (st : DriverState) (r : Option (String × Bool)) :
    ((streamStep st r).1).is_running = st.is_running := by
  cases r with
  | none => rfl
  | some p =>
    obtain ⟨t, b⟩ := p
    cases b <;> rfl

/-- Helper: a run of ordinary responses followed by a channel failure aborts
the loop at the failure, emitting the error and Error-status events after
the responses' events, and everything after the failure is ignored. -/
theorem streamLoop_resp_fail (pre : List (Option (String × Bool))) (m : String)
    (post : List StreamItem) :
    ∀ st : DriverState, st.is_running = true →
      streamLoop st (pre.map StreamItem.resp ++ StreamItem.failure m :: post)
        = ((streamLoop st (pre.map StreamItem.resp)).1,
           (streamLoop st (pre.map StreamItem.resp)).2
             ++ [Event.error m, Event.status ("Error: " ++ m)]) ∧
      ((streamLoop st (pre.map StreamItem.resp)).1).is_running = true := by
  induction pre with
  | nil =>
    intro st h
    constructor
    · simp [streamLoop, h]
    · simpa [streamLoop] using h
  | cons r pre ih =>
    intro st h
    have hs : ((streamStep st r).1).is_running = true := by
      rw [streamStep_running]; exact h
    obtain ⟨h1, h2⟩ := ih (streamStep st r).1 hs
    constructor
    · simp only [List.map_cons, List.cons_append, streamLoop, h, if_true, List.append_eq]
      rw [h1]
      simp [List.append_assoc]
    · simp only [List.map_cons, streamLoop, h, if_true]
      exact h2

/-- C10.  A channel failure on the streaming path aborts the loop: the trace
ends with the error event carrying the failure message, the Error status and
the terminal Stopped status, is_running ends false, and the items after the
failure contribute nothing (no reconnect; only a fresh start recovers). -/
theorem streaming_error_fatal (pre : List (Option (String × Bool))) (m : String)
    (post : List StreamItem) :
    stream_audio startState (pre.map StreamItem.resp ++ StreamItem.failure m :: post)
      = ({ (streamLoop startState (pre.map StreamItem.resp)).1 with is_running := false },
         (streamLoop startState (pre.map StreamItem.resp)).2
           ++ [Event.error m, Event.status ("Error: " ++ m), Event.status "Stopped"]) ∧
    (stream_audio startState
        (pre.map StreamItem.resp ++ StreamItem.failure m :: post)).1.is_running
      = false := by
  obtain ⟨h1, h2⟩ := streamLoop_resp_fail pre m post startState rfl
  constructor
  · show ({ (streamLoop startState
        (pre.map StreamItem.resp ++ StreamItem.failure m :: post)).1 with
          is_running := false },
      (streamLoop startState (pre.map StreamItem.resp ++ StreamItem.failure m :: post)).2
        ++ [Event.status "Stopped"]) = _
    rw [h1]
    simp
  · show ({ (streamLoop startState
        (pre.map StreamItem.resp ++ StreamItem.failure m :: post)).1 with
          is_running := false } : DriverState).is_running = false
    rfl

/-- Helper: countSU distributes over concatenation. -/
theorem countSU_append (a b : List Event) (n : Nat) :
    countSU (a ++ b) n = countSU a n + countSU b n := by
  simp [countSU, List.filter_append]

/-- Helper: conservation of the per-id emission budget by one segment step:
the number of speaker_updates for id n emitted so far plus the remaining
budget (one if n is not yet in processed, zero otherwise) never changes. -/
theorem segStep_inv (wl : List TimelineWord) (seg : Segment) (acc : TickAcc) (n : Nat) :
    countSU (segStep wl acc seg).events n
      + (if n ∈ (segStep wl acc seg).processed then 0 else 1)
    = countSU acc.events n + (if n ∈ acc.processed then 0 else 1) := by
  unfold segStep
  by_cases hmem : seg.id ∈ acc.processed
  · rw [if_pos hmem]
  · rw [if_neg hmem]
    cases hmv : maxVote (alignSegment wl acc.word_idx seg.text).2 with
    | none => rfl
    | some t =>
      simp only [countSU_append]
      by_cases hid : seg.id = n
      · subst hid
        have h1 : countSU [Event.speaker_update seg.id t (colorFor t) (nameFor t)] seg.id
            = 1 := by simp [countSU, isSUFor]
        have h2 : seg.id ∈ acc.processed ++ [seg.id] := by simp
        rw [h1, if_pos h2, if_neg hmem]
      · have h1 : countSU [Event.speaker_update seg.id t (colorFor t) (nameFor t)] n
            = 0 := by simp [countSU, isSUFor, hid]
        have h2 : (n ∈ acc.processed ++ [seg.id]) ↔ n ∈ acc.processed := by
          simp [Ne.symm hid]
        rw [h1]
        by_cases h3 : n ∈ acc.processed
        · rw [if_pos (h2.mpr h3), if_pos h3]
        · rw [if_neg (fun hh => h3 (h2.mp hh)), if_neg h3]

/-- Helper: the emission-budget conservation extends over the segment loop. -/
theorem processSegments_inv (wl : List TimelineWord) (segs : List Segment) :
    ∀ (acc : TickAcc) (n : Nat),
      countSU (processSegments wl acc segs).events n
        + (if n ∈ (processSegments wl acc segs).processed then 0 else 1)
      = countSU acc.events n + (if n ∈ acc.processed then 0 else 1) := by
  induction segs with
  | nil => intro acc n; rfl
  | cons seg segs ih =>
    intro acc n
    have h1 := ih (segStep wl acc seg) n
    have h2 := segStep_inv wl seg acc n
    calc countSU (processSegments wl acc (seg :: segs)).events n
          + (if n ∈ (processSegments wl acc (seg :: segs)).processed then 0 else 1)
        = countSU (processSegments wl (segStep wl acc seg) segs).events n
          + (if n ∈ (processSegments wl (segStep wl acc seg) segs).processed
             then 0 else 1) := rfl
      _ = countSU (segStep wl acc seg).events n
          + (if n ∈ (segStep wl acc seg).processed then 0 else 1) := h1
      _ = countSU acc.events n + (if n ∈ acc.processed then 0 else 1) := h2

/-- Helper: the emission-budget conservation for one whole tick. -/
theorem tick_inv (p : List Nat) (tr : List Segment) (a : Nat) (d : DiarResult)
    (n : Nat) :
    countSU (tick p tr a d).events n + (if n ∈ (tick p tr a d).processed then 0 else 1)
    = if n ∈ p then 0 else 1 := by
  by_cases h1 : unprocessedOf p tr = []
  · have heq : tick p tr a d = ⟨p, [], TickStatus.skippedNoUnprocessed⟩ := by
      unfold tick; rw [if_pos h1]
    rw [heq]; simp [countSU]
  · by_cases h2 : a < MIN_DIAR_BYTES
    · have heq : tick p tr a d = ⟨p, [], TickStatus.skippedShortAudio⟩ := by
        unfold tick; rw [if_neg h1, if_pos h2]
      rw [heq]; simp [countSU]
    · cases d with
      | fail m =>
        have heq : tick p tr a (DiarResult.fail m) = ⟨p, [], TickStatus.ran⟩ := by
          unfold tick; rw [if_neg h1, if_neg h2]
        rw [heq]; simp [countSU]
      | noResults =>
        have heq : tick p tr a DiarResult.noResults = ⟨p, [], TickStatus.ran⟩ := by
          unfold tick; rw [if_neg h1, if_neg h2]
        rw [heq]; simp [countSU]
      | ok words =>
        have heq : tick p tr a (DiarResult.ok words)
            = ⟨(processSegments
                  (words.map (fun w => ⟨lowerString w.word, w.speaker⟩))
                  ⟨0, p, []⟩ tr).processed,
               (processSegments
                  (words.map (fun w => ⟨lowerString w.word, w.speaker⟩))
                  ⟨0, p, []⟩ tr).events, TickStatus.ran⟩ := by
          unfold tick; rw [if_neg h1, if_neg h2]
        rw [heq]
        have h := processSegments_inv
          (words.map (fun w => ⟨lowerString w.word, w.speaker⟩)) tr ⟨0, p, []⟩ n
        simpa [countSU] using h

/-- Helper: the emission-budget conservation across the whole loop. -/
theorem runTicks_inv (tis : List TickInput) :
    ∀ (p : List Nat) (n : Nat),
      countSU (runTicks p tis).2 n + (if n ∈ (runTicks p tis).1 then 0 else 1)
      = if n ∈ p then 0 else 1 := by
  induction tis with
  | nil => intro p n; simp [runTicks, countSU]
  | cons ti rest ih =>
    intro p n
    have h1 := ih (tick p ti.transcript ti.audioLen ti.dia).processed n
    have h2 := tick_inv p ti.transcript ti.audioLen ti.dia n
    calc countSU (runTicks p (ti :: rest)).2 n
          + (if n ∈ (runTicks p (ti :: rest)).1 then 0 else 1)
        = countSU ((tick p ti.transcript ti.audioLen ti.dia).events
            ++ (runTicks (tick p ti.transcript ti.audioLen ti.dia).processed rest).2) n
          + (if n ∈ (runTicks (tick p ti.transcript ti.audioLen ti.dia).processed
              rest).1 then 0 else 1) := rfl
      _ = countSU (tick p ti.transcript ti.audioLen ti.dia).events n
          + (countSU (runTicks (tick p ti.transcript ti.audioLen ti.dia).processed
              rest).2 n
            + (if n ∈ (runTicks (tick p ti.transcript ti.audioLen ti.dia).processed
                rest).1 then 0 else 1)) := by rw [countSU_append, Nat.add_assoc]
      _ = countSU (tick p ti.transcript ti.audioLen ti.dia).events n
          + (if n ∈ (tick p ti.transcript ti.audioLen ti.dia).processed
             then 0 else 1) := by rw [h1]
      _ = if n ∈ p then 0 else 1 := h2

/-- C1.  Within one session (the reconciler starts with an empty processed
set), no segment id ever receives more than one speaker_update across all
reconciliation ticks, whatever the ticks observe. -/
theorem diarization_speaker_update_once (tis : List TickInput) (n : Nat) :
    countSU (runTicks [] tis).2 n ≤ 1 := by
  have h := runTicks_inv tis [] n
  by_cases hm : n ∈ (runTicks [] tis).1
  · rw [if_pos hm] at h
    simp at h
    omega
  · rw [if_neg hm] at h
    simp at h
    omega

/-- Helper: first-match characterization of List.find? over a contiguous
index range. -/
theorem find_range_first (p : Nat → Bool) :
    ∀ (n lo wi : Nat), (List.range' lo n).find? p = some wi ↔
      (lo ≤ wi ∧ wi < lo + n ∧ p wi = true ∧
       ∀ j, lo ≤ j → j < wi → p j = false) := by
  intro n
  induction n with
  | zero =>
    intro lo wi
    constructor
    · intro h; simp [List.range'] at h
    · rintro ⟨h1, h2, _, _⟩; omega
  | succ n ih =>
    intro lo wi
    rw [List.range'_succ lo n 1]
    by_cases hp : p lo = true
    · rw [List.find?_cons_of_pos _ hp]
      constructor
      · intro h
        have hwi : lo = wi := by injection h
        subst hwi
        refine ⟨Nat.le_refl _, by omega, hp, ?_⟩
        intro j hj1 hj2
        exact absurd (Nat.lt_of_le_of_lt hj1 hj2) (Nat.lt_irrefl _)
      · rintro ⟨h1, h2, h3, h4⟩
        rcases Nat.eq_or_lt_of_le h1 with he | hlt
        · rw [he]
        · have := h4 lo (Nat.le_refl _) hlt
          rw [hp] at this
          exact absurd this (by simp)
    · have hp' : ¬ p lo := by simp [hp]
      rw [List.find?_cons_of_neg _ hp']
      rw [ih (lo + 1) wi]
      constructor
      · rintro ⟨h1, h2, h3, h4⟩
        refine ⟨by omega, by omega, h3, ?_⟩
        intro j hj1 hj2
        rcases Nat.eq_or_lt_of_le hj1 with he | hlt
        · rw [← he]
          exact Bool.not_eq_true _ ▸ (by simpa using hp)
        · exact h4 j hlt hj2
      · rintro ⟨h1, h2, h3, h4⟩
        have hne : wi ≠ lo := by
          intro he
          rw [he] at h3
          exact hp h3
        refine ⟨by omega, by omega, h3, ?_⟩
        intro j hj1 hj2
        exact h4 j (by omega) hj2

/-- C5 (amended).  findHit finds exactly the first index wi in the window
from 5 behind the cursor (clamped to 0) up to 20 ahead of the cursor
(clamped to the timeline length) whose timeline word starts with the
token's first-three-character prefix (Python startswith of clean[:3]),
and nothing outside that window or after an earlier hit. -/
theorem findHit_window_first_startswith (wl : List TimelineWord) (idx : Nat)
    (clean : List Char) (wi : Nat) :
    findHit wl idx clean = some wi ↔
      (idx - 5 ≤ wi ∧ wi < min wl.length (idx + 20) ∧
       startsWithL (wl.getD wi noWord).word.toList (clean.take 3) = true ∧
       ∀ wj, idx - 5 ≤ wj → wj < wi →
         startsWithL (wl.getD wj noWord).word.toList (clean.take 3) = false) := by
  unfold findHit window
  rw [find_range_first]
  unfold hitAt
  constructor
  · rintro ⟨h1, h2, h3, h4⟩
    exact ⟨h1, by omega, h3, h4⟩
  · rintro ⟨h1, h2, h3, h4⟩
    exact ⟨h1, by omega, h3, h4⟩

/-- C5 witness for the amended characterization: on timeline ["high"] with
token "hi", index 0 is in the window, the word starts with the token's
prefix, and nothing precedes it, so findHit returns index 0. -/
theorem findHit_window_first_startswith_witness :
    findHit [⟨"high", 1⟩] 0 (['h', 'i'] : List Char) = some 0 :=
  (findHit_window_first_startswith [⟨"high", 1⟩] 0 (['h', 'i'] : List Char) 0).mpr
    ⟨by decide, by decide, by decide, fun wj h1 h2 => absurd h2 (Nat.not_lt_zero wj)⟩

/-- C5 counterexample.  On timeline ["high"] (speaker 1) and segment text
"hi", the source's startswith-based matching casts a vote (the code hit
predicate accepts token "hi" against word "high"), while matching by
equality of the first three characters, as the claim words it, finds no hit
and casts no vote: the claim's "exactly when" fails for tokens shorter than
three characters. -/
theorem hit_predicate_cex :
    alignSegment [⟨"high", 1⟩] 0 "hi" = (1, [(1, 1)]) ∧
    claimAlignSegment [⟨"high", 1⟩] 0 "hi" = (0, []) :=
  ⟨by decide, by decide⟩

/-- C6 (amended).  After each matched token the cursor is set to one past
the matched word; because the window reaches 5 words behind the cursor,
one matched token can move the cursor backward, but never by more than 4
positions (and an unmatched or empty token leaves it unchanged), so the
cursor is not monotone over a pass. -/
theorem cursor_step_bound (wl : List TimelineWord) (st : Nat × List (ℤ × Nat))
    (tok : List Char) :
    st.1 ≤ (voteStep wl st tok).1 + 4 ∧
    (∀ wi, cleanChars tok ≠ [] → findHit wl st.1 (cleanChars tok) = some wi →
       (voteStep wl st tok).1 = wi + 1) ∧
    (cleanChars tok = [] → voteStep wl st tok = st) ∧
    (findHit wl st.1 (cleanChars tok) = none → voteStep wl st tok = st) := by
  refine ⟨?_, ?_, ?_, ?_⟩
  · by_cases hc : cleanChars tok = []
    · simp [voteStep, hc]
    · cases hf : findHit wl st.1 (cleanChars tok) with
      | none => simp [voteStep, hc, hf]
      | some wi =>
        have hfr : (List.range' (st.1 - 5)
            (min wl.length (st.1 + 20) - (st.1 - 5))).find?
              (fun j => hitAt wl j (cleanChars tok)) = some wi := by
          simpa [findHit, window] using hf
        have hb := (find_range_first (fun j => hitAt wl j (cleanChars tok))
          (min wl.length (st.1 + 20) - (st.1 - 5)) (st.1 - 5) wi).mp hfr
        have hlo : st.1 - 5 ≤ wi := hb.1
        simp [voteStep, hc, hf]
        omega
  · intro wi hc hf
    simp [voteStep, hc, hf]
  · intro hc
    simp [voteStep, hc]
  · intro hf
    by_cases hc : cleanChars tok = []
    · simp [voteStep, hc]
    · simp [voteStep, hc, hf]

/-- C6 witness for the amended statement: a concrete single-token match at
window index 0 from cursor 0 sets the cursor to 1, within the bound; a token
with no matching timeline word, and a token whose cleaning is empty, both
leave the state unchanged. -/
theorem cursor_step_bound_witness :
    ((0 : Nat) ≤ (voteStep [⟨"abc", 2⟩] (0, []) "abc".toList).1 + 4 ∧
     (voteStep [⟨"abc", 2⟩] (0, []) "abc".toList).1 = 0 + 1) ∧
    voteStep [⟨"xyz", 2⟩] (0, []) "abc".toList = (0, []) ∧
    voteStep [⟨"abc", 2⟩] (0, []) "!!".toList = (0, []) :=
  ⟨⟨(cursor_step_bound [⟨"abc", 2⟩] (0, []) "abc".toList).1,
    (cursor_step_bound [⟨"abc", 2⟩] (0, []) "abc".toList).2.1 0
      (by decide) (by decide)⟩,
   (cursor_step_bound [⟨"xyz", 2⟩] (0, []) "abc".toList).2.2.2 (by decide),
   (cursor_step_bound [⟨"abc", 2⟩] (0, []) "!!".toList).2.2.1 (by decide)⟩

/-- C6 counterexample.  With timeline ["aaa".."ggg"] the first segment
("ggg") drives the cursor to 7; processing the next segment ("ccc") matches
at window index 2 and sets the cursor to 3 < 7: the cursor decreases during
one reconciliation pass, refuting forward-only monotonicity. -/
theorem cursor_decreases_cex :
    (processSegments
        [⟨"aaa", 1⟩, ⟨"bbb", 1⟩, ⟨"ccc", 1⟩, ⟨"ddd", 1⟩, ⟨"eee", 1⟩, ⟨"fff", 1⟩, ⟨"ggg", 1⟩]
        ⟨0, [], []⟩ [⟨0, "ggg"⟩]).word_idx = 7 ∧
    (processSegments
        [⟨"aaa", 1⟩, ⟨"bbb", 1⟩, ⟨"ccc", 1⟩, ⟨"ddd", 1⟩, ⟨"eee", 1⟩, ⟨"fff", 1⟩, ⟨"ggg", 1⟩]
        ⟨0, [], []⟩ [⟨0, "ggg"⟩, ⟨1, "ccc"⟩]).word_idx = 3 :=
  ⟨by decide, by decide⟩

/-- Helper: the max scan over the tail of a tally either keeps the carried
best (when nothing in the tail strictly beats its count) or returns the
first tail entry attaining the overall maximum, with every entry before it
strictly smaller. -/
theorem maxVoteAux_split :
    ∀ (l : List (ℤ × Nat)) (t : ℤ) (c : Nat),
      (maxVoteAux t c l = t ∧ ∀ q ∈ l, q.2 ≤ c) ∨
      (∃ pre p suf, l = pre ++ p :: suf ∧ maxVoteAux t c l = p.1 ∧ c < p.2 ∧
         (∀ q ∈ l, q.2 ≤ p.2) ∧ ∀ q ∈ pre, q.2 < p.2) := by
  intro l
  induction l with
  | nil => intro t c; exact Or.inl ⟨rfl, by simp⟩
  | cons x rest ih =>
    intro t c
    obtain ⟨t2, c2⟩ := x
    by_cases hx : c < c2
    · have hred : maxVoteAux t c ((t2, c2) :: rest) = maxVoteAux t2 c2 rest := by
        simp [maxVoteAux, hx]
      rcases ih t2 c2 with ⟨h1, h2⟩ | ⟨pre, p, suf, hsplit, hval, hlt, hall, hpre⟩
      · refine Or.inr ⟨[], (t2, c2), rest, by simp, ?_, hx, ?_, by simp⟩
        · rw [hred, h1]
        · intro q hq
          rcases List.mem_cons.mp hq with he | hq
          · rw [he]
          · exact h2 q hq
      · refine Or.inr ⟨(t2, c2) :: pre, p, suf, by simp [hsplit],
          by rw [hred, hval], by omega, ?_, ?_⟩
        · intro q hq
          rcases List.mem_cons.mp hq with he | hq
          · rw [he]; exact Nat.le_of_lt hlt
          · exact hall q hq
        · intro q hq
          rcases List.mem_cons.mp hq with he | hq
          · rw [he]; exact hlt
          · exact hpre q hq
    · have hred : maxVoteAux t c ((t2, c2) :: rest) = maxVoteAux t c rest := by
        simp [maxVoteAux, hx]
      have hxle : c2 ≤ c := Nat.le_of_not_lt hx
      rcases ih t c with ⟨h1, h2⟩ | ⟨pre, p, suf, hsplit, hval, hlt, hall, hpre⟩
      · refine Or.inl ⟨by rw [hred, h1], ?_⟩
        intro q hq
        rcases List.mem_cons.mp hq with he | hq
        · rw [he]; exact hxle
        · exact h2 q hq
      · refine Or.inr ⟨(t2, c2) :: pre, p, suf, by simp [hsplit],
          by rw [hred, hval], hlt, ?_, ?_⟩
        · intro q hq
          rcases List.mem_cons.mp hq with he | hq
          · rw [he]; exact Nat.le_of_lt (Nat.lt_of_le_of_lt hxle hlt)
          · exact hall q hq
        · intro q hq
          rcases List.mem_cons.mp hq with he | hq
          · rw [he]; exact Nat.lt_of_le_of_lt hxle hlt
          · exact hpre q hq

/-- C7.  When the alignment of an unprocessed segment casts at least one
vote, the segment step emits exactly one speaker_update for that segment
whose speaker tag is the winning entry of the tally: its count is maximal,
every tally entry inserted before it has a strictly smaller count
(first-encountered tie break of the max scan), and the event carries the
display colour colorFor and display name nameFor, the (tag - 1) mod 5
lookups into the two fixed palettes; the segment id is then marked
processed. -/
theorem vote_winner_emission (wl : List TimelineWord) (acc : TickAcc)
    (seg : Segment) (hmem : seg.id ∉ acc.processed)
    (hne : (alignSegment wl acc.word_idx seg.text).2 ≠ []) :
    ∃ p pre suf,
      (alignSegment wl acc.word_idx seg.text).2 = pre ++ p :: suf ∧
      maxVote (alignSegment wl acc.word_idx seg.text).2 = some p.1 ∧
      (∀ q ∈ (alignSegment wl acc.word_idx seg.text).2, q.2 ≤ p.2) ∧
      (∀ q ∈ pre, q.2 < p.2) ∧
      (segStep wl acc seg).events
        = acc.events ++ [Event.speaker_update seg.id p.1 (colorFor p.1) (nameFor p.1)] ∧
      (segStep wl acc seg).processed = acc.processed ++ [seg.id] := by
  obtain ⟨v, rest, hv⟩ :
      ∃ v rest, (alignSegment wl acc.word_idx seg.text).2 = v :: rest := by
    cases hvv : (alignSegment wl acc.word_idx seg.text).2 with
    | nil => exact absurd hvv hne
    | cons a b => exact ⟨a, b, rfl⟩
  obtain ⟨v1, v2⟩ := v
  have hmax : maxVote (alignSegment wl acc.word_idx seg.text).2
      = some (maxVoteAux v1 v2 rest) := by rw [hv]; rfl
  rcases maxVoteAux_split rest v1 v2 with ⟨h1, h2⟩ |
      ⟨pre, p, suf, hsplit, hval, hlt, hall, hpre⟩
  · refine ⟨(v1, v2), [], rest, by simp [hv], by rw [hmax, h1], ?_, by simp, ?_, ?_⟩
    · intro q hq
      rw [hv] at hq
      rcases List.mem_cons.mp hq with he | hq
      · rw [he]
      · exact h2 q hq
    · unfold segStep
      rw [if_neg hmem, hmax, h1]
    · unfold segStep
      rw [if_neg hmem, hmax, h1]
  · refine ⟨p, (v1, v2) :: pre, suf, by simp [hv, hsplit],
      by rw [hmax, hval], ?_, ?_, ?_, ?_⟩
    · intro q hq
      rw [hv] at hq
      rcases List.mem_cons.mp hq with he | hq
      · rw [he]; exact Nat.le_of_lt hlt
      · rw [hsplit] at hq
        rcases List.mem_append.mp hq with hq | hq
        · exact hall q (by rw [hsplit]; exact List.mem_append_left _ hq)
        · exact hall q (by rw [hsplit]; exact List.mem_append_right _ hq)
    · intro q hq
      rcases List.mem_cons.mp hq with he | hq
      · rw [he]; exact hlt
      · exact hpre q hq
    · unfold segStep
      rw [if_neg hmem, hmax, hval]
    · unfold segStep
      rw [if_neg hmem, hmax, hval]

/-- C7 witness: on timeline ["hello","world"] (both speaker 1) and fresh
segment 0 with text "hello world", the tally is nonempty and the step emits
the speaker_update with the winning tag's colour and name. -/
theorem vote_winner_emission_witness :
    ∃ p pre suf,
      (alignSegment [⟨"hello", 1⟩, ⟨"world", 1⟩] 0 "hello world").2
        = pre ++ p :: suf ∧
      maxVote (alignSegment [⟨"hello", 1⟩, ⟨"world", 1⟩] 0 "hello world").2
        = some p.1 ∧
      (∀ q ∈ (alignSegment [⟨"hello", 1⟩, ⟨"world", 1⟩] 0 "hello world").2,
        q.2 ≤ p.2) ∧
      (∀ q ∈ pre, q.2 < p.2) ∧
      (segStep [⟨"hello", 1⟩, ⟨"world", 1⟩] ⟨0, [], []⟩ ⟨0, "hello world"⟩).events
        = [] ++ [Event.speaker_update 0 p.1 (colorFor p.1) (nameFor p.1)] ∧
      (segStep [⟨"hello", 1⟩, ⟨"world", 1⟩] ⟨0, [], []⟩
        ⟨0, "hello world"⟩).processed = [] ++ [0] :=
  vote_winner_emission [⟨"hello", 1⟩, ⟨"world", 1⟩] ⟨0, [], []⟩ ⟨0, "hello world"⟩
    (by decide) (by decide)

/-- Helper: every event present after the segment loop was either already in
the accumulator or is a speaker_update for one of the scanned segments. -/
theorem processSegments_events_mem (wl : List TimelineWord) (segs : List Segment) :
    ∀ (acc : TickAcc) (e : Event), e ∈ (processSegments wl acc segs).events →
      e ∈ acc.events ∨ ∃ seg, seg ∈ segs ∧ ∃ t,
        e = Event.speaker_update seg.id t (colorFor t) (nameFor t) := by
  induction segs with
  | nil => intro acc e h; exact Or.inl h
  | cons seg segs ih =>
    intro acc e h
    have h' : e ∈ (processSegments wl (segStep wl acc seg) segs).events := h
    rcases ih (segStep wl acc seg) e h' with hacc | ⟨s, hs, t, ht⟩
    · unfold segStep at hacc
      by_cases hmem : seg.id ∈ acc.processed
      · rw [if_pos hmem] at hacc
        exact Or.inl hacc
      · rw [if_neg hmem] at hacc
        cases hmv : maxVote (alignSegment wl acc.word_idx seg.text).2 with
        | none =>
          rw [hmv] at hacc
          exact Or.inl hacc
        | some t =>
          rw [hmv] at hacc
          simp only [List.mem_append, List.mem_singleton] at hacc
          rcases hacc with hacc | hacc
          · exact Or.inl hacc
          · exact Or.inr ⟨seg, List.mem_cons_self seg segs, t, hacc⟩
    · exact Or.inr ⟨s, List.mem_cons_of_mem seg hs, t, ht⟩

/-- Helper: a speaker_update emitted by a tick always targets the id of some
segment of the transcript ledger the tick observed. -/
theorem tick_su_src (p : List Nat) (tr : List Segment) (a : Nat) (d : DiarResult)
    (e : Event) (n : Nat) (he : e ∈ (tick p tr a d).events)
    (hsu : isSUFor n e = true) : ∃ seg, seg ∈ tr ∧ seg.id = n := by
  by_cases h1 : unprocessedOf p tr = []
  · have heq : tick p tr a d = ⟨p, [], TickStatus.skippedNoUnprocessed⟩ := by
      unfold tick; rw [if_pos h1]
    rw [heq] at he
    simp at he
  · by_cases h2 : a < MIN_DIAR_BYTES
    · have heq : tick p tr a d = ⟨p, [], TickStatus.skippedShortAudio⟩ := by
        unfold tick; rw [if_neg h1, if_pos h2]
      rw [heq] at he
      simp at he
    · cases d with
      | fail m =>
        have heq : tick p tr a (DiarResult.fail m) = ⟨p, [], TickStatus.ran⟩ := by
          unfold tick; rw [if_neg h1, if_neg h2]
        rw [heq] at he
        simp at he
      | noResults =>
        have heq : tick p tr a DiarResult.noResults = ⟨p, [], TickStatus.ran⟩ := by
          unfold tick; rw [if_neg h1, if_neg h2]
        rw [heq] at he
        simp at he
      | ok words =>
        have hev : (tick p tr a (DiarResult.ok words)).events
            = (processSegments
                (words.map (fun w => ⟨lowerString w.word, w.speaker⟩))
                ⟨0, p, []⟩ tr).events := by
          unfold tick; rw [if_neg h1, if_neg h2]
        rw [hev] at he
        rcases processSegments_events_mem _ _ _ e he
          with hnil | ⟨seg, hseg, t, ht⟩
        · simp at hnil
        · refine ⟨seg, hseg, ?_⟩
          rw [ht] at hsu
          simpa [isSUFor] using hsu

/-- Helper: appending events preserves speaker-update-after-final provided
every appended speaker_update already has its final event in the prefix. -/
theorem suAfter_append (acc E : List Event) (hP : suAfterFinalIn acc)
    (hE : ∀ e n, e ∈ E → isSUFor n e = true → ∃ t, Event.final n t ∈ acc) :
    suAfterFinalIn (acc ++ E) := by
  intro n i h
  by_cases hi : i < acc.length
  · have hg : (acc ++ E).getD i (Event.interim "") = acc.getD i (Event.interim "") := by
      rw [List.getD_eq_getElem?_getD, List.getD_eq_getElem?_getD,
        List.getElem?_append_left hi]
    rw [hg] at h
    obtain ⟨t, ht⟩ := hP n i h
    refine ⟨t, ?_⟩
    rw [List.take_append_eq_append_take]
    exact List.mem_append_left _ ht
  · have hile : acc.length ≤ i := Nat.le_of_not_lt hi
    have hg : (acc ++ E).getD i (Event.interim "")
        = E.getD (i - acc.length) (Event.interim "") := by
      rw [List.getD_eq_getElem?_getD, List.getD_eq_getElem?_getD,
        List.getElem?_append_right hile]
    rw [hg] at h
    by_cases hj : i - acc.length < E.length
    · have hmem : E.getD (i - acc.length) (Event.interim "") ∈ E := by
        rw [List.getD_eq_getElem _ _ hj]
        exact List.getElem_mem hj
      obtain ⟨t, ht⟩ := hE _ n hmem h
      refine ⟨t, ?_⟩
      rw [List.take_append_eq_append_take, List.take_of_length_le hile]
      exact List.mem_append_left _ ht
    · have hnone : E.getD (i - acc.length) (Event.interim "") = Event.interim "" := by
        rw [List.getD_eq_getElem?_getD, List.getElem?_eq_none (Nat.le_of_not_lt hj)]
        rfl
      rw [hnone] at h
      simp [isSUFor] at h

/-- Helper: running any interleaving from a state whose ledger ids all have
their final events in the trace so far preserves speaker-update-after-final
over the extended trace. -/
theorem sysRun_suAfter (ops : List SysOp) :
    ∀ (st : SysState) (acc : List Event),
      (∀ seg ∈ st.transcript, ∃ t, Event.final seg.id t ∈ acc) →
      suAfterFinalIn acc →
      suAfterFinalIn (acc ++ (sysRun st ops).2) := by
  induction ops with
  | nil =>
    intro st acc hT hP
    simpa [sysRun] using hP
  | cons op ops ih =>
    intro st acc hT hP
    have key : acc ++ (sysRun st (op :: ops)).2
        = (acc ++ (sysStep st op).2) ++ (sysRun (sysStep st op).1 ops).2 := by
      show acc ++ ((sysStep st op).2 ++ (sysRun (sysStep st op).1 ops).2) = _
      rw [List.append_assoc]
    rw [key]
    have hT' : ∀ seg ∈ (sysStep st op).1.transcript,
        ∃ t, Event.final seg.id t ∈ acc ++ (sysStep st op).2 := by
      cases op with
      | recv r =>
        cases r with
        | none =>
          intro seg hs
          obtain ⟨t, ht⟩ := hT seg hs
          exact ⟨t, List.mem_append_left _ ht⟩
        | some pr =>
          obtain ⟨t0, b⟩ := pr
          cases b with
          | false =>
            intro seg hs
            obtain ⟨t, ht⟩ := hT seg hs
            exact ⟨t, List.mem_append_left _ ht⟩
          | true =>
            intro seg hs
            have hs' : seg ∈ st.transcript ++ [⟨st.caption_id, t0⟩] := hs
            rcases List.mem_append.mp hs' with hs'' | hs''
            · obtain ⟨t, ht⟩ := hT seg hs''
              exact ⟨t, List.mem_append_left _ ht⟩
            · have : seg = ⟨st.caption_id, t0⟩ := List.mem_singleton.mp hs''
              refine ⟨t0, List.mem_append_right _ ?_⟩
              rw [this]
              exact List.mem_singleton.mpr rfl
      | tick a d =>
        intro seg hs
        obtain ⟨t, ht⟩ := hT seg hs
        exact ⟨t, List.mem_append_left _ ht⟩
    have hP' : suAfterFinalIn (acc ++ (sysStep st op).2) := by
      apply suAfter_append acc _ hP
      cases op with
      | recv r =>
        cases r with
        | none => intro e n he hsu; simp [sysStep] at he
        | some pr =>
          obtain ⟨t0, b⟩ := pr
          cases b with
          | false =>
            intro e n he hsu
            have : e = Event.interim t0 := by simpa [sysStep] using he
            rw [this] at hsu
            simp [isSUFor] at hsu
          | true =>
            intro e n he hsu
            have : e = Event.final st.caption_id t0 := by simpa [sysStep] using he
            rw [this] at hsu
            simp [isSUFor] at hsu
      | tick a d =>
        intro e n he hsu
        have hE : e ∈ (tick st.processed st.transcript a d).events := he
        obtain ⟨seg, hseg, hid⟩ :=
          tick_su_src st.processed st.transcript a d e n hE hsu
        obtain ⟨t, ht⟩ := hT seg hseg
        exact ⟨t, by rw [← hid]; exact ht⟩
    exact ih (sysStep st op).1 (acc ++ (sysStep st op).2) hT' hP'

/-- C2.  In every interleaving of the streaming driver and the reconciler
started from a fresh session, a speaker_update for id n at trace position i
is strictly preceded by the final event carrying id n: the reconciler only
resolves ids that the driver has already appended to the ledger and
announced with a final event. -/
theorem speaker_update_after_final (ops : List SysOp) (n : Nat) (i : Nat)
    (h : isSUFor n ((sysRun sysInit ops).2.getD i (Event.interim "")) = true) :
    ∃ t, Event.final n t ∈ (sysRun sysInit ops).2.take i := by
  have hP0 : suAfterFinalIn ([] : List Event) := by
    intro n i h
    simp [List.getD, isSUFor] at h
  have hT0 : ∀ seg ∈ sysInit.transcript, ∃ t, Event.final seg.id t ∈ ([] : List Event) := by
    intro seg hs
    simp [sysInit] at hs
  have := sysRun_suAfter ops sysInit [] hT0 hP0
  rw [List.nil_append] at this
  exact this n i h

/-- C2 witness: one final ("hello world", id 0) followed by one successful
tick; the speaker_update at position 1 is preceded by the final at
position 0. -/
theorem speaker_update_after_final_witness :
    isSUFor 0 ((sysRun sysInit [SysOp.recv (some ("hello world", true)),
        SysOp.tick MIN_DIAR_BYTES
          (DiarResult.ok [⟨"hello", 1⟩, ⟨"world", 1⟩])]).2.getD 1
        (Event.interim "")) = true ∧
    ∃ t, Event.final 0 t ∈ (sysRun sysInit [SysOp.recv (some ("hello world", true)),
        SysOp.tick MIN_DIAR_BYTES
          (DiarResult.ok [⟨"hello", 1⟩, ⟨"world", 1⟩])]).2.take 1 :=
  ⟨by decide, speaker_update_after_final _ 0 1 (by decide)⟩

end StreamingCaption
